import Mathlib

/-!
Verification of the `advanced-vector` repository (`src/advanced-vector/vector.h`):
a from-scratch dynamic array `Vector<T>` layered over a raw storage block
`RawMemory<T>`.

The shallow embedding below translates the source into Lean:

* `RawMemory` (pointer + capacity) is embedded together with an explicit
  allocator heap (the list of currently allocated addresses), so that
  deallocation validity (double free / invalid free) is observable.
* `Vec` embeds `Vector<T>` for a value-semantic element type: the live
  elements `[0, size)` as a `List Int` plus the owned block's capacity.
  `size_` is `elems.length`.
* Operations whose exception behaviour matters (`Reserve`, `EmplaceBack`,
  `Emplace`, copy assignment) are additionally embedded in a fallible form:
  each element copy/assignment consults an oracle `Nat → Bool` on a running
  call counter (the counting element type of the spec, throwing on a
  configured call), and the function returns `Except w r` where an error
  carries the observable state of the container after the exception escaped
  (mirroring the cleanup the source performs before propagating).
-/

/-! ## Raw storage block (`RawMemory<T>`, vector.h lines 9-145)

The buffer pointer is `Option Nat` (an address or null); the allocator heap is
the list of currently allocated addresses.  `deallocate` mirrors
`RawMemory::Deallocate` (`operator delete`): freeing null is a no-op, and the
returned flag records whether the free was valid (the address was currently
allocated). -/

structure RawMemory where
  buffer : Option Nat
  capacity : Nat
deriving DecidableEq

def deallocate (h : List Nat) (p : Option Nat) : List Nat × Bool :=
  match p with
  | none => (h, true)
  | some a => (h.erase a, decide (a ∈ h))

/-- RawMemory move constructor (lines 52-58): the freshly constructed object
holds `buffer_ = nullptr`, the constructor body deallocates that (a no-op)
and then exchanges the source's pointer and capacity, leaving the source
null with capacity 0.  Returns (heap, new object, source after). -/
def RawMemory.moveCtor (h : List Nat) (other : RawMemory) :
    List Nat × RawMemory × RawMemory :=
  let d := deallocate h none
  (d.1, ⟨other.buffer, other.capacity⟩, ⟨none, 0⟩)

/-- RawMemory move assignment for distinct objects (lines 60-67): deallocates
the destination's buffer, then exchanges the source's pointer and capacity,
leaving the source null with capacity 0.  Returns
(heap, destination after, source after, validity of the free). -/
def RawMemory.moveAssign (h : List Nat) (dst src : RawMemory) :
    List Nat × RawMemory × RawMemory × Bool :=
  let d := deallocate h dst.buffer
  (d.1, ⟨src.buffer, src.capacity⟩, ⟨none, 0⟩, d.2)

/-- RawMemory move assignment executed with `this == &rhs` (lines 60-67 with
both references aliasing one object): `Deallocate(buffer_)` frees the buffer,
then `std::exchange(rhs.buffer_, nullptr)` reads back the just-freed pointer
and it is stored into `buffer_` again; likewise the capacity is read and
stored back.  The object therefore keeps its old (now dangling) pointer and
capacity.  Returns (heap, object after, validity of the free). -/
def RawMemory.selfMoveAssign (h : List Nat) (b : RawMemory) :
    List Nat × RawMemory × Bool :=
  let d := deallocate h b.buffer
  (d.1, ⟨b.buffer, b.capacity⟩, d.2)

/-- RawMemory destructor (lines 77-81): deallocates the buffer; the flag
records whether that free was valid. -/
def RawMemory.destruct (h : List Nat) (b : RawMemory) : List Nat × Bool :=
  deallocate h b.buffer

/-! ## Dynamic array (`Vector<T>`, vector.h lines 147-522), pure model

For an element type with non-throwing, value-preserving copy/move (the claims
about sizes, capacities and element order are stated for such runs).  Moves
are value-preserving, so a moved element contributes its value. -/

structure Vec where
  elems : List Int
  cap : Nat
deriving DecidableEq

/-- Default constructor (line 152): null block, size 0. -/
def vecDefault : Vec := ⟨[], 0⟩

/-- `Vector(size_t size)` (lines 211-215): allocates `size` capacity and
value-constructs `size` elements (value `0` for the scalar model). -/
def vecOfSize (n : Nat) : Vec := ⟨List.replicate n 0, n⟩

/-- Copy constructor (lines 223-227): allocates exactly `other.size_`
capacity and copies the elements. -/
def Vec.copyCtor (other : Vec) : Vec := ⟨other.elems, other.elems.length⟩

/-- Move constructor (lines 229-233): members are default-initialized (null
block, size 0) and then `Swap(other)` runs.  Returns
(constructed object, source after). -/
def Vec.moveCtor (other : Vec) : Vec × Vec := (other, ⟨[], 0⟩)

/-- Copy assignment (lines 236-267) in the value-semantic model.  `same`
models the `this != &rhs` identity test: self-assignment is a no-op.  When
`rhs.size_ > Capacity()` a full copy is built and swapped in (capacity becomes
`rhs.size_`); otherwise the common prefix is assigned element-wise, surplus
elements are destroyed or missing ones copy-constructed, and the size becomes
`rhs.size_` while the capacity is kept. -/
def Vec.copyAssign (dst src : Vec) (same : Bool) : Vec :=
  if same then dst
  else if dst.cap < src.elems.length then ⟨src.elems, src.elems.length⟩
  else ⟨src.elems, dst.cap⟩

/-- Move assignment (lines 269-274): `Swap(rhs)`.  Returns
(destination after, source after) — the two states are exchanged. -/
def Vec.moveAssign (dst rhs : Vec) : Vec × Vec := (rhs, dst)

/-- `Swap` (lines 276-281): exchanges block and size. -/
def Vec.swap (a b : Vec) : Vec × Vec := (b, a)

/-- `Reserve` (lines 344-368): no-op when the requested capacity fits,
otherwise transplant all live elements into a fresh block of exactly the
requested capacity. -/
def Vec.reserve (v : Vec) (n : Nat) : Vec :=
  if n ≤ v.cap then v else ⟨v.elems, n⟩

/-- `Resize` (lines 370-390): no-op on equal size; shrinking destroys the
tail; growing reserves and value-constructs the new tail. -/
def Vec.resize (v : Vec) (n : Nat) : Vec :=
  if n = v.elems.length then v
  else if n < v.elems.length then ⟨v.elems.take n, v.cap⟩
  else
    let r := v.reserve n
    ⟨r.elems ++ List.replicate (n - v.elems.length) 0, r.cap⟩

/-- `EmplaceBack` (lines 414-444): at full capacity, allocate
`size_ == 0 ? 1 : size_ * 2`, construct the new element one-past-end of the
new block, transplant the old elements, destroy the originals and swap;
otherwise construct directly into the next free slot.  Either way the new
element ends at position `size_` and the size increments. -/
def Vec.emplaceBack (v : Vec) (x : Int) : Vec :=
  if v.elems.length = v.cap then
    ⟨v.elems ++ [x], if v.elems.length = 0 then 1 else v.elems.length * 2⟩
  else
    ⟨v.elems ++ [x], v.cap⟩

/-- `PushBack` (lines 392-402): both overloads forward to `EmplaceBack`. -/
def Vec.pushBack (v : Vec) (x : Int) : Vec := v.emplaceBack x

/-- `PopBack` (lines 404-412): when non-empty, destroy the last element and
decrement the size. -/
def Vec.popBack (v : Vec) : Vec :=
  if v.elems.length = 0 then v else ⟨v.elems.dropLast, v.cap⟩

/-- `Emplace` (lines 446-499).  `index` is the distance from `begin()` to
`pos`.  At full capacity: allocate `size_ == 0 ? 1 : size_ * 2`, construct
the new element at `index` in the new block, transplant the prefix
`[0, index)` and the suffix `[index, size_)` (shifted one right) around it.
Otherwise, when `size_ != index`: construct a duplicate of the last element
one-past-end, shift `[index, size_)` one right with `std::move_backward`
(combined effect on the live values: `take (index+1) ++ drop index`), then
assign the new value into slot `index`.  When `size_ == index`: construct
directly at the end.  Returns the vector and `begin() + index`. -/
def Vec.emplace (v : Vec) (index : Nat) (x : Int) : Vec × Nat :=
  if v.elems.length = v.cap then
    (⟨v.elems.take index ++ x :: v.elems.drop index,
      if v.elems.length = 0 then 1 else v.elems.length * 2⟩, index)
  else if v.elems.length ≠ index then
    (⟨(v.elems.take (index + 1) ++ v.elems.drop index).set index x, v.cap⟩,
      index)
  else
    (⟨v.elems ++ [x], v.cap⟩, index)

/-- `Erase` (lines 501-510): requires `size_ > 0`; `std::move` shifts
`[index+1, size_)` one slot left, the trailing slot is destroyed, the size
decrements.  The live values become `take index ++ drop (index+1)`.
Returns the vector and `begin() + index`. -/
def Vec.erase (v : Vec) (index : Nat) : Vec × Nat :=
  (⟨v.elems.take index ++ v.elems.drop (index + 1), v.cap⟩, index)

/-- `Insert` (lines 512-522): both overloads delegate to `Emplace`. -/
def Vec.insert (v : Vec) (index : Nat) (x : Int) : Vec × Nat :=
  v.emplace index x

/-! ## Helper lemmas about the shift performed by the non-growth Emplace path
and by Erase. -/

theorem shift_set_eq (l : List Int) (i : Nat) (x : Int) (h : i < l.length) :
    (l.take (i + 1) ++ l.drop i).set i x = l.take i ++ x :: l.drop i := by
  induction l generalizing i with
  | nil => simp at h
  | cons a t ih =>
    cases i with
    | zero => simp
    | succ j =>
      simp only [List.length_cons, Nat.succ_lt_succ_iff] at h
      simp only [List.take_succ_cons, List.drop_succ_cons, List.cons_append,
        List.set_cons_succ]
      rw [ih j h]

theorem getD_shift_left (l : List Int) (i : Nat) (h : i + 1 < l.length) :
    (l.take i ++ l.drop (i + 1)).getD i 0 = l.getD (i + 1) 0 := by
  induction l generalizing i with
  | nil => simp at h
  | cons a t ih =>
    cases i with
    | zero => simp
    | succ j =>
      simp only [List.length_cons, Nat.succ_lt_succ_iff] at h
      simp only [List.take_succ_cons, List.drop_succ_cons, List.cons_append,
        List.getD_cons_succ]
      exact ih j h

/-! ## Reachable states of a dynamic array

Closure of the public operations of `Vector<T>`, starting from the two
constructors.  Binary operations (copy assignment, move assignment, swap)
combine two reachable states; operations with preconditions (`Emplace`
requires a position in `[0, size]`, `Erase` a valid position in a non-empty
array) carry them as hypotheses. -/

inductive Reachable : Vec → Prop
  | deflt : Reachable vecDefault
  | ofSize (n : Nat) : Reachable (vecOfSize n)
  | copyCtor {v : Vec} : Reachable v → Reachable (Vec.copyCtor v)
  | moveCtorDst {v : Vec} : Reachable v → Reachable (Vec.moveCtor v).1
  | moveCtorSrc {v : Vec} : Reachable v → Reachable (Vec.moveCtor v).2
  | copyAssign {v w : Vec} (same : Bool) :
      Reachable v → Reachable w → Reachable (Vec.copyAssign v w same)
  | moveAssignDst {v w : Vec} :
      Reachable v → Reachable w → Reachable (Vec.moveAssign v w).1
  | moveAssignSrc {v w : Vec} :
      Reachable v → Reachable w → Reachable (Vec.moveAssign v w).2
  | swapFst {v w : Vec} :
      Reachable v → Reachable w → Reachable (Vec.swap v w).1
  | swapSnd {v w : Vec} :
      Reachable v → Reachable w → Reachable (Vec.swap v w).2
  | reserve {v : Vec} (n : Nat) : Reachable v → Reachable (v.reserve n)
  | resize {v : Vec} (n : Nat) : Reachable v → Reachable (v.resize n)
  | pushBack {v : Vec} (x : Int) : Reachable v → Reachable (v.pushBack x)
  | popBack {v : Vec} : Reachable v → Reachable v.popBack
  | emplaceBack {v : Vec} (x : Int) : Reachable v → Reachable (v.emplaceBack x)
  | emplace {v : Vec} (index : Nat) (x : Int) :
      index ≤ v.elems.length → Reachable v → Reachable (v.emplace index x).1
  | insert {v : Vec} (index : Nat) (x : Int) :
      index ≤ v.elems.length → Reachable v → Reachable (v.insert index x).1
  | erase {v : Vec} (index : Nat) :
      0 < v.elems.length → index < v.elems.length → Reachable v →
      Reachable (v.erase index).1

/-! ## Fallible element operations (the counting, throwing element type)

`oracle cnt` tells whether the `cnt`-th copy/assignment of the element type
throws.  Every fallible operation threads the counter through its element
copies and returns the observable container state also on the error path. -/

/-- `std::uninitialized_copy_n` over the live elements: copies each in order;
if a copy throws it destroys the elements it itself constructed and
propagates, so nothing escapes — the error carries only the failing counter
value. -/
def uninitCopyN (oracle : Nat → Bool) :
    List Int → Nat → Except Nat (List Int × Nat)
  | [], cnt => .ok ([], cnt)
  | x :: xs, cnt =>
    if oracle cnt then .error cnt
    else
      match uninitCopyN oracle xs (cnt + 1) with
      | .ok (ys, c) => .ok (x :: ys, c)
      | .error c => .error c

/-- `std::copy_n` over already-live destination slots: assigns each source
element into the corresponding destination slot.  If an assignment throws,
the slots assigned so far keep their new values — the error carries the
partially updated destination. -/
def assignN (oracle : Nat → Bool) :
    List Int → List Int → Nat → Except (List Int) (List Int × Nat)
  | [], dst, cnt => .ok (dst, cnt)
  | _ :: _, [], cnt => .ok ([], cnt)
  | x :: xs, d :: ds, cnt =>
    if oracle cnt then .error (d :: ds)
    else
      match assignN oracle xs ds (cnt + 1) with
      | .ok (ds2, c) => .ok (x :: ds2, c)
      | .error ds2 => .error (x :: ds2)

/-- `Reserve` (lines 344-368) for an element type whose copy can throw (so
the `if constexpr` picks `std::uninitialized_copy_n`).  On a throw the new
block and its partial contents are discarded and the original array is
untouched. -/
def reserveT (oracle : Nat → Bool) (cnt : Nat) (v : Vec) (n : Nat) :
    Except Vec (Vec × Nat) :=
  if n ≤ v.cap then .ok (v, cnt)
  else
    match uninitCopyN oracle v.elems cnt with
    | .ok (ys, c) => .ok (⟨ys, n⟩, c)
    | .error _ => .error v

/-- `EmplaceBack` (lines 414-444) for a copy-only throwing element type,
called with a value to copy (`PushBack(const T&)`): the argument copy itself
consumes a counter tick.  In the growth path the new element is constructed
into the new block first, then the old elements are transplanted; a throw
anywhere discards the new block and leaves the array untouched. -/
def emplaceBackT (oracle : Nat → Bool) (cnt : Nat) (v : Vec) (x : Int) :
    Except Vec (Vec × Nat) :=
  if v.elems.length = v.cap then
    if oracle cnt then .error v
    else
      match uninitCopyN oracle v.elems (cnt + 1) with
      | .ok (ys, c) =>
        .ok (⟨ys ++ [x], if v.elems.length = 0 then 1 else v.elems.length * 2⟩,
          c)
      | .error _ => .error v
  else
    if oracle cnt then .error v
    else .ok (⟨v.elems ++ [x], v.cap⟩, cnt + 1)

/-- Copy assignment (lines 236-267) for a throwing element type, `this` and
`rhs` distinct.  Large path (`rhs.size_ > Capacity()`): build a full copy,
swap it in; a throw leaves `dst` untouched.  Fits path: assign the common
prefix element-wise (`std::copy_n`), then destroy the surplus or
copy-construct the missing tail; a throw during the prefix assignments or the
tail construction leaves the already-assigned prefix slots modified. -/
def copyAssignT (oracle : Nat → Bool) (cnt : Nat) (dst src : Vec) :
    Except Vec (Vec × Nat) :=
  if dst.cap < src.elems.length then
    match uninitCopyN oracle src.elems cnt with
    | .ok (ys, c) => .ok (⟨ys, src.elems.length⟩, c)
    | .error _ => .error dst
  else
    let copyPos := min src.elems.length dst.elems.length
    match assignN oracle (src.elems.take copyPos) dst.elems cnt with
    | .error part => .error ⟨part, dst.cap⟩
    | .ok (dst1, c) =>
      if src.elems.length < dst.elems.length then
        .ok (⟨dst1.take src.elems.length, dst.cap⟩, c)
      else
        match uninitCopyN oracle (src.elems.drop dst.elems.length) c with
        | .ok (ys, c2) => .ok (⟨dst1 ++ ys, dst.cap⟩, c2)
        | .error _ => .error ⟨dst1, dst.cap⟩

/-- Non-growth path of `Emplace` (lines 483-495) with `Insert(pos, const T&)`
arguments: when `size_ != index`, the last element is duplicated one-past-end
and `[index, size_)` is shifted right (these are moves of a
nothrow-move element), and only then is the temporary `T(args...)` copy
constructed and move-assigned into slot `index`; if that copy throws, the
shifted arrangement stays in the live range `[0, size_)`.  When
`size_ == index` the copy is constructed directly at the end and a throw
changes nothing. -/
def emplaceNoGrowT (oracle : Nat → Bool) (cnt : Nat) (v : Vec) (index : Nat)
    (x : Int) : Except Vec (Vec × Nat) :=
  if v.elems.length ≠ index then
    let shifted := v.elems.take (index + 1) ++ v.elems.drop index
    if oracle cnt then .error ⟨shifted.take v.elems.length, v.cap⟩
    else .ok (⟨shifted.set index x, v.cap⟩, cnt + 1)
  else
    if oracle cnt then .error v
    else .ok (⟨v.elems ++ [x], v.cap⟩, cnt + 1)

/-! ## Growth path of `Emplace` with explicit new-block slots

To check the cleanup in the `catch` block (lines 474-478) the new block is
modelled slot by slot: `none` is raw (unconstructed or already destroyed)
memory, `some x` a live element. -/

/-- `std::destroy_n(tmp.GetAddress(), n)`: destroys slots `[0, n)`.  The flag
records whether every destroyed slot actually held a live element (destroying
raw memory is undefined behaviour). -/
def destroyN : List (Option Int) → Nat → List (Option Int) × Bool
  | slots, 0 => (slots, true)
  | [], _ + 1 => ([], false)
  | s :: rest, n + 1 =>
    let r := destroyN rest n
    (none :: r.1, s.isSome && r.2)

/-- `std::uninitialized_copy_n` into the new block starting at `off`: on
success returns the updated slots; on a throw it destroys exactly the slots
it itself constructed, so the caller's pre-call slots are the post-cleanup
state and the error carries only the failing counter. -/
def uninitCopyInto (oracle : Nat → Bool) :
    List Int → Nat → List (Option Int) → Nat →
    Except Nat (List (Option Int) × Nat)
  | [], cnt, slots, _ => .ok (slots, cnt)
  | x :: xs, cnt, slots, off =>
    if oracle cnt then .error cnt
    else uninitCopyInto oracle xs (cnt + 1) (slots.set off (some x)) (off + 1)

structure EmplaceGrowthOutcome where
  /-- Final observable array: `ok` with the post-insert array, or `error`
  carrying the array as observable after the exception escaped. -/
  result : Except Vec Vec
  /-- All `destroy` calls executed on the new block hit live slots only. -/
  cleanupValid : Bool

/-- Growth path of `Emplace` (lines 452-482) for a copy-only throwing element
type, inserting at `index` into a full vector `v`.  A fresh block of
`size_ == 0 ? 1 : size_ * 2` raw slots is made, the new element (a copy of
the argument, one counter tick) is constructed at slot `index`, then the
prefix `[0, index)` is transplanted to offset 0 and the suffix
`[index, size_)` to offset `index + 1`.  If either transplant throws, the
`catch` block runs `std::destroy_n(tmp.GetAddress(), index + 1)` on the new
block's current slot state and the exception propagates with the original
array unchanged.  On success the old elements are destroyed (all live) and
the blocks are swapped. -/
def emplaceGrowthT (oracle : Nat → Bool) (cnt : Nat) (v : Vec) (index : Nat)
    (x : Int) : EmplaceGrowthOutcome :=
  let newCap := if v.elems.length = 0 then 1 else v.elems.length * 2
  let slots0 : List (Option Int) := List.replicate newCap none
  if oracle cnt then ⟨.error v, true⟩
  else
    let slots1 := slots0.set index (some x)
    match uninitCopyInto oracle (v.elems.take index) (cnt + 1) slots1 0 with
    | .error _ => ⟨.error v, (destroyN slots1 (index + 1)).2⟩
    | .ok (slots2, c2) =>
      match uninitCopyInto oracle (v.elems.drop index) c2 slots2 (index + 1)
        with
      | .error _ => ⟨.error v, (destroyN slots2 (index + 1)).2⟩
      | .ok (slots3, _) => ⟨.ok ⟨slots3.filterMap id, newCap⟩, true⟩

/-! ## Move-vs-copy selection during reallocation -/

/-- Compile-time capabilities of the element type, as queried by the
`if constexpr` in `Reserve`, `EmplaceBack` and `Emplace`. -/
structure ElemTraits where
  nothrowMove : Bool
  copyConstructible : Bool

/-- State of a source cell after the transplant has run over it. -/
structure CellState where
  value : Int
  movedFrom : Bool

/-- The transplant step shared by `Reserve` (lines 352-365), `EmplaceBack`
(lines 422-434) and `Emplace` (lines 462-472):
`if constexpr (std::is_nothrow_move_constructible_v<T> ||
!std::is_copy_constructible_v<T>)` it move-constructs every live element into
the new block (marking the sources moved-from), otherwise it copy-constructs
them (sources untouched), where each copy consults the throwing oracle.
Returns the outcome for the new block and the source cells afterwards. -/
def transplant (t : ElemTraits) (oracle : Nat → Bool) (cnt : Nat)
    (src : List Int) : Except Unit (List Int × Nat) × List CellState :=
  if t.nothrowMove || !t.copyConstructible then
    (Except.ok (src, cnt), src.map fun v => ⟨v, true⟩)
  else
    match uninitCopyN oracle src cnt with
    | .ok (ys, c) => (Except.ok (ys, c), src.map fun v => ⟨v, false⟩)
    | .error _ => (Except.error (), src.map fun v => ⟨v, false⟩)

/-! ## Claim C1: move construction / move assignment -/

/-- C1, counterexample.  The claim states that after move-assigning A into B,
A has size 0 and capacity 0.  Move assignment is `Swap(rhs)` with the
destination's current state, not with a default-constructed instance: with
B = ⟨[7], 1⟩ and A = ⟨[1,2], 2⟩, after `B = std::move(A)` the source A holds
B's old state ⟨[7], 1⟩ — size 1, capacity 1, not empty. -/
theorem spec_c1_counterexample :
    ¬((Vec.moveAssign ⟨[7], 1⟩ ⟨[1, 2], 2⟩).2.elems.length = 0 ∧
      (Vec.moveAssign ⟨[7], 1⟩ ⟨[1, 2], 2⟩).2.cap = 0) := by
  decide

/-- C1, amended.  Move construction swaps with the default-initialized new
object, so the new vector holds exactly the source's elements and the source
becomes empty (size 0, capacity 0).  Move assignment `B = std::move(A)` is a
plain swap of B with A: B receives exactly A's pre-move size and elements,
while A receives B's pre-move state (so A is empty afterwards only when B was
empty before).  Both are total (never throw). -/
theorem spec_c1_amended (a b : Vec) :
    Vec.moveCtor a = (a, vecDefault) ∧
    (Vec.moveCtor a).2.elems.length = 0 ∧
    (Vec.moveCtor a).2.cap = 0 ∧
    Vec.moveAssign b a = (a, b) ∧
    (Vec.moveAssign b a).1.elems = a.elems :=
  ⟨rfl, rfl, rfl, rfl, rfl⟩

/-! ## Claim C4: raw storage block moves -/

/-- C4, counterexample.  The claim states self-move-assignment leaves the
block in a valid empty-or-owning state with no double free.  With heap `[0]`
and block ⟨some 0, 1⟩, self-move-assignment first deallocates the buffer and
then `std::exchange` hands the same pointer and capacity back, so the block
still holds the freed address 0 with capacity 1, and the subsequent
destructor's deallocation is invalid (a double free). -/
theorem spec_c4_counterexample :
    (RawMemory.selfMoveAssign [0] ⟨some 0, 1⟩).2.1 = ⟨some 0, 1⟩ ∧
    (RawMemory.destruct (RawMemory.selfMoveAssign [0] ⟨some 0, 1⟩).1
      (RawMemory.selfMoveAssign [0] ⟨some 0, 1⟩).2.1).2 = false := by
  decide

/-- C4, amended.  Move construction and move assignment between distinct
blocks transfer the pointer and capacity and leave the source empty (null,
capacity 0).  Self-move-assignment, however, is not safe: the block keeps its
old pointer and capacity although the buffer was just deallocated, so when
the buffer was a live allocation the destructor's subsequent free is invalid
(double free). -/
theorem spec_c4_amended (h : List Nat) (dst src b : RawMemory)
    (hnd : h.Nodup) :
    (RawMemory.moveCtor h src).2.1 = ⟨src.buffer, src.capacity⟩ ∧
    (RawMemory.moveCtor h src).2.2 = ⟨none, 0⟩ ∧
    (RawMemory.moveAssign h dst src).2.1 = ⟨src.buffer, src.capacity⟩ ∧
    (RawMemory.moveAssign h dst src).2.2.1 = ⟨none, 0⟩ ∧
    (RawMemory.selfMoveAssign h b).2.1 = b ∧
    (∀ a : Nat, b.buffer = some a → a ∈ h →
      (RawMemory.destruct (RawMemory.selfMoveAssign h b).1
        (RawMemory.selfMoveAssign h b).2.1).2 = false) := by
  refine ⟨rfl, rfl, rfl, rfl, rfl, ?_⟩
  intro a hb _
  simp only [RawMemory.selfMoveAssign, RawMemory.destruct, deallocate, hb]
  exact decide_eq_false fun hmem => (hnd.mem_erase_iff.mp hmem).1 rfl

/-- C4, witness: the amended theorem at heap `[3, 7]`, a non-self move of
⟨some 7, 2⟩ into ⟨some 3, 4⟩, and a self-move of ⟨some 3, 4⟩. -/
theorem spec_c4_witness :
    (RawMemory.moveAssign [3, 7] ⟨some 3, 4⟩ ⟨some 7, 2⟩).2.1 = ⟨some 7, 2⟩ ∧
    (RawMemory.destruct
      (RawMemory.selfMoveAssign [3, 7] ⟨some 3, 4⟩).1
      (RawMemory.selfMoveAssign [3, 7] ⟨some 3, 4⟩).2.1).2 = false :=
  ⟨(spec_c4_amended [3, 7] ⟨some 3, 4⟩ ⟨some 7, 2⟩ ⟨some 3, 4⟩
      (by decide)).2.2.1,
   (spec_c4_amended [3, 7] ⟨some 3, 4⟩ ⟨some 7, 2⟩ ⟨some 3, 4⟩
      (by decide)).2.2.2.2.2 3 rfl (by decide)⟩

/-! ## Claim C7: Emplace / Insert correctness -/

/-- C7: for a position `index` in `[0, size]`, `Emplace` yields the sequence
with `x` placed at `index`, the prefix and suffix in their original relative
order, size grown by one, and returns the position marker `index`; `Insert`
delegates to `Emplace`. -/
theorem emplace_fst_elems (v : Vec) (index : Nat) (x : Int)
    (h : index ≤ v.elems.length) :
    (v.emplace index x).1.elems =
      v.elems.take index ++ x :: v.elems.drop index := by
  by_cases hg : v.elems.length = v.cap
  · simp [Vec.emplace, hg]
  · by_cases hi : v.elems.length = index
    · rw [show v.emplace index x = (⟨v.elems ++ [x], v.cap⟩, index) by
        unfold Vec.emplace
        rw [if_neg hg, if_neg (by omega)]]
      rw [← hi]
      simp
    · rw [show v.emplace index x =
          (⟨(v.elems.take (index + 1) ++ v.elems.drop index).set index x,
            v.cap⟩, index) by
        unfold Vec.emplace
        rw [if_neg hg, if_pos hi]]
      exact shift_set_eq v.elems index x (by omega)

theorem emplace_fst_cap (v : Vec) (index : Nat) (x : Int) :
    (v.emplace index x).1.cap =
      if v.elems.length = v.cap then
        (if v.elems.length = 0 then 1 else v.elems.length * 2)
      else v.cap := by
  unfold Vec.emplace
  split
  · rfl
  · split
    · rfl
    · rfl

theorem spec_c7 (v : Vec) (index : Nat) (x : Int)
    (h : index ≤ v.elems.length) :
    (v.emplace index x).1.elems =
      v.elems.take index ++ x :: v.elems.drop index ∧
    (v.emplace index x).1.elems.length = v.elems.length + 1 ∧
    (v.emplace index x).2 = index ∧
    v.insert index x = v.emplace index x := by
  have he := emplace_fst_elems v index x h
  have hr : (v.emplace index x).2 = index := by
    unfold Vec.emplace
    split
    · rfl
    · split
      · rfl
      · rfl
  refine ⟨he, ?_, hr, rfl⟩
  rw [he]
  simp only [List.length_append, List.length_take, List.length_cons,
    List.length_drop]
  omega

/-- C7, witness: inserting 99 at position 1 of [1, 2, 3] (capacity 4). -/
theorem spec_c7_witness :
    (Vec.emplace ⟨[1, 2, 3], 4⟩ 1 99).1.elems =
      (⟨[1, 2, 3], 4⟩ : Vec).elems.take 1 ++
        99 :: (⟨[1, 2, 3], 4⟩ : Vec).elems.drop 1 ∧
    (Vec.emplace ⟨[1, 2, 3], 4⟩ 1 99).1.elems.length =
      (⟨[1, 2, 3], 4⟩ : Vec).elems.length + 1 ∧
    (Vec.emplace ⟨[1, 2, 3], 4⟩ 1 99).2 = 1 ∧
    Vec.insert ⟨[1, 2, 3], 4⟩ 1 99 = Vec.emplace ⟨[1, 2, 3], 4⟩ 1 99 :=
  spec_c7 ⟨[1, 2, 3], 4⟩ 1 99 (by decide)

/-! ## Claim C8: Erase correctness -/

/-- C8: for a valid position `index < size` of a non-empty array, `Erase`
removes exactly the element at `index`, keeps the others in order, shrinks
the size by one, keeps the capacity, and returns the marker `index`, which
addresses the slot now holding the element that followed the erased one (or
equals the new size — the end marker — when the erased element was last). -/
theorem spec_c8 (v : Vec) (index : Nat) (h : index < v.elems.length) :
    (v.erase index).1.elems =
      v.elems.take index ++ v.elems.drop (index + 1) ∧
    (v.erase index).1.elems.length = v.elems.length - 1 ∧
    (v.erase index).1.cap = v.cap ∧
    (v.erase index).2 = index ∧
    (index + 1 < v.elems.length →
      (v.erase index).1.elems.getD index 0 = v.elems.getD (index + 1) 0) ∧
    (index + 1 = v.elems.length →
      (v.erase index).2 = (v.erase index).1.elems.length) := by
  refine ⟨rfl, ?_, rfl, rfl, ?_, ?_⟩
  · simp only [Vec.erase, List.length_append, List.length_take,
      List.length_drop]
    omega
  · intro h2
    exact getD_shift_left v.elems index h2
  · intro h2
    simp only [Vec.erase, List.length_append, List.length_take,
      List.length_drop]
    omega

/-- C8, witness: erasing position 0 of [1, 99, 2, 3] (capacity 4). -/
theorem spec_c8_witness :
    (Vec.erase ⟨[1, 99, 2, 3], 4⟩ 0).1.elems =
      (⟨[1, 99, 2, 3], 4⟩ : Vec).elems.take 0 ++
        (⟨[1, 99, 2, 3], 4⟩ : Vec).elems.drop 1 ∧
    (Vec.erase ⟨[1, 99, 2, 3], 4⟩ 0).1.elems.length =
      (⟨[1, 99, 2, 3], 4⟩ : Vec).elems.length - 1 ∧
    (Vec.erase ⟨[1, 99, 2, 3], 4⟩ 0).1.cap = 4 ∧
    (Vec.erase ⟨[1, 99, 2, 3], 4⟩ 0).2 = 0 ∧
    (0 + 1 < (⟨[1, 99, 2, 3], 4⟩ : Vec).elems.length →
      (Vec.erase ⟨[1, 99, 2, 3], 4⟩ 0).1.elems.getD 0 0 =
        (⟨[1, 99, 2, 3], 4⟩ : Vec).elems.getD (0 + 1) 0) ∧
    (0 + 1 = (⟨[1, 99, 2, 3], 4⟩ : Vec).elems.length →
      (Vec.erase ⟨[1, 99, 2, 3], 4⟩ 0).2 =
        (Vec.erase ⟨[1, 99, 2, 3], 4⟩ 0).1.elems.length) :=
  spec_c8 ⟨[1, 99, 2, 3], 4⟩ 0 (by decide)

/-! ## Claim C10: self copy-assignment -/

/-- C10: copy-assigning a vector to itself leaves it unchanged.  The source
guards with `this != &rhs`, so aliased assignment is a no-op; and even
without the guard, for any vector satisfying the size-within-capacity
invariant the fits-in-capacity path would reassign every element its own
value and keep size and capacity. -/
theorem spec_c10 (v : Vec) :
    v.copyAssign v true = v ∧
    (v.elems.length ≤ v.cap → v.copyAssign v false = v) := by
  constructor
  · rfl
  · intro h
    unfold Vec.copyAssign
    simp [Nat.not_lt.mpr h]

/-- C10, witness: self-assignment of ⟨[4], 2⟩ both with and without the
identity guard. -/
theorem spec_c10_witness :
    Vec.copyAssign ⟨[4], 2⟩ ⟨[4], 2⟩ true = ⟨[4], 2⟩ ∧
    Vec.copyAssign ⟨[4], 2⟩ ⟨[4], 2⟩ false = ⟨[4], 2⟩ :=
  ⟨(spec_c10 ⟨[4], 2⟩).1, (spec_c10 ⟨[4], 2⟩).2 (by decide)⟩

/-! ## Claim C5: size and capacity under append sequences -/

/-- Capacity shape maintained by append-only growth from an empty vector:
zero while empty, otherwise the least power of two at least the size. -/
def capInv (v : Vec) : Prop :=
  v.cap = if v.elems.length = 0 then 0 else 2 ^ Nat.clog 2 v.elems.length

theorem capInv_emplaceBack {v : Vec} (h : capInv v) (x : Int) :
    capInv (v.emplaceBack x) ∧
    (v.emplaceBack x).elems.length = v.elems.length + 1 := by
  have hlen : (v.emplaceBack x).elems.length = v.elems.length + 1 := by
    unfold Vec.emplaceBack
    split <;> simp
  refine ⟨?_, hlen⟩
  unfold capInv at h ⊢
  rw [hlen]
  by_cases hg : v.elems.length = v.cap
  · rw [show (v.emplaceBack x).cap =
        (if v.elems.length = 0 then 1 else v.elems.length * 2) by
      unfold Vec.emplaceBack
      rw [if_pos hg]]
    by_cases h0 : v.elems.length = 0
    · rw [if_pos h0, if_neg (by omega), h0]
      simp [Nat.clog_one_right]
    · rw [if_neg h0, if_neg (by omega)]
      have hfix : v.cap = 2 ^ Nat.clog 2 v.elems.length := by
        rw [h, if_neg h0]
      have hk : Nat.clog 2 (v.elems.length + 1) =
          Nat.clog 2 v.elems.length + 1 := by
        apply le_antisymm
        · refine (Nat.le_pow_iff_clog_le one_lt_two).mp ?_
          rw [pow_succ]
          omega
        · by_contra hc
          push_neg at hc
          have h2 := (Nat.le_pow_iff_clog_le one_lt_two).mpr
            (show Nat.clog 2 (v.elems.length + 1) ≤
              Nat.clog 2 v.elems.length by omega)
          omega
      rw [hk, pow_succ]
      omega
  · rw [show (v.emplaceBack x).cap = v.cap by
      unfold Vec.emplaceBack
      rw [if_neg hg]]
    by_cases h0 : v.elems.length = 0
    · exfalso
      rw [if_pos h0] at h
      omega
    · rw [if_neg h0] at h
      have hle := Nat.le_pow_clog one_lt_two v.elems.length
      have hk : Nat.clog 2 (v.elems.length + 1) =
          Nat.clog 2 v.elems.length := by
        apply le_antisymm
        · exact (Nat.le_pow_iff_clog_le one_lt_two).mp (by omega)
        · exact Nat.clog_mono_right 2 (by omega)
      rw [if_neg (by omega), hk]
      exact h

theorem capInv_foldl (xs : List Int) (v : Vec) (h : capInv v) :
    capInv (xs.foldl Vec.emplaceBack v) ∧
    (xs.foldl Vec.emplaceBack v).elems.length =
      v.elems.length + xs.length := by
  induction xs generalizing v with
  | nil => exact ⟨h, rfl⟩
  | cons x xs ih =>
    simp only [List.foldl_cons, List.length_cons]
    obtain ⟨h1, h2⟩ := capInv_emplaceBack h x
    obtain ⟨h3, h4⟩ := ih (v.emplaceBack x) h1
    exact ⟨h3, by omega⟩

/-- C5: after any sequence of `N` appends starting from a default-constructed
vector, the size is `N` and the capacity is `0` for `N = 0` and otherwise the
least power of two that is at least `N` (the doubling sequence 1, 2, 4, 8,
...), hence always at least `N`; and whenever an append (`EmplaceBack` or
`Emplace`) finds the vector at full capacity, the new capacity is
`max 1 (2 * old capacity)`. -/
theorem spec_c5 :
    (∀ xs : List Int,
      (xs.foldl Vec.emplaceBack vecDefault).elems.length = xs.length ∧
      xs.length ≤ (xs.foldl Vec.emplaceBack vecDefault).cap ∧
      (xs.foldl Vec.emplaceBack vecDefault).cap =
        (if xs.length = 0 then 0 else 2 ^ Nat.clog 2 xs.length)) ∧
    (∀ (v : Vec) (x : Int), v.elems.length = v.cap →
      (v.emplaceBack x).cap = max 1 (2 * v.cap)) ∧
    (∀ (v : Vec) (index : Nat) (x : Int), v.elems.length = v.cap →
      (v.emplace index x).1.cap = max 1 (2 * v.cap)) := by
  refine ⟨?_, ?_, ?_⟩
  · intro xs
    have h0 : capInv vecDefault := by simp [capInv, vecDefault]
    obtain ⟨h1, h2⟩ := capInv_foldl xs vecDefault h0
    have hlen : (xs.foldl Vec.emplaceBack vecDefault).elems.length =
        xs.length := by
      rw [h2]
      simp [vecDefault]
    unfold capInv at h1
    rw [hlen] at h1
    refine ⟨hlen, ?_, h1⟩
    by_cases hz : xs.length = 0
    · omega
    · rw [h1, if_neg hz]
      exact Nat.le_pow_clog one_lt_two xs.length
  · intro v x h
    rw [show (v.emplaceBack x).cap =
        (if v.elems.length = 0 then 1 else v.elems.length * 2) by
      unfold Vec.emplaceBack
      rw [if_pos h]]
    by_cases h0 : v.elems.length = 0
    · rw [if_pos h0]
      omega
    · rw [if_neg h0]
      omega
  · intro v index x h
    rw [emplace_fst_cap, if_pos h]
    by_cases h0 : v.elems.length = 0
    · rw [if_pos h0]
      omega
    · rw [if_neg h0]
      omega

/-- C5, witness: three appends from empty give size 3 and capacity 4, and an
append into the full vector ⟨[5], 1⟩ grows the capacity to
`max 1 (2 * 1) = 2`. -/
theorem spec_c5_witness :
    (([1, 2, 3] : List Int).foldl Vec.emplaceBack vecDefault).elems.length
        = 3 ∧
    (Vec.emplaceBack ⟨[5], 1⟩ 6).cap = max 1 (2 * 1) ∧
    (Vec.emplace ⟨[5], 1⟩ 0 6).1.cap = max 1 (2 * 1) :=
  ⟨(spec_c5.1 [1, 2, 3]).1,
   spec_c5.2.1 ⟨[5], 1⟩ 6 rfl,
   spec_c5.2.2 ⟨[5], 1⟩ 0 6 rfl⟩

/-! ## Claim C9: the size-within-capacity invariant -/

theorem emplaceBack_length_le {v : Vec} (x : Int)
    (h : v.elems.length ≤ v.cap) :
    (v.emplaceBack x).elems.length ≤ (v.emplaceBack x).cap := by
  unfold Vec.emplaceBack
  by_cases hg : v.elems.length = v.cap
  · rw [if_pos hg]
    simp only [List.length_append, List.length_cons, List.length_nil]
    by_cases h0 : v.elems.length = 0
    · rw [if_pos h0]
      omega
    · rw [if_neg h0]
      omega
  · rw [if_neg hg]
    simp only [List.length_append, List.length_cons, List.length_nil]
    omega

theorem emplace_length_le {v : Vec} (index : Nat) (x : Int)
    (hidx : index ≤ v.elems.length) (h : v.elems.length ≤ v.cap) :
    (v.emplace index x).1.elems.length ≤ (v.emplace index x).1.cap := by
  have he := emplace_fst_elems v index x hidx
  have hlen : (v.emplace index x).1.elems.length = v.elems.length + 1 := by
    rw [he]
    simp only [List.length_append, List.length_take, List.length_cons,
      List.length_drop]
    omega
  rw [hlen, emplace_fst_cap]
  by_cases hg : v.elems.length = v.cap
  · rw [if_pos hg]
    by_cases h0 : v.elems.length = 0
    · rw [if_pos h0]
      omega
    · rw [if_neg h0]
      omega
  · rw [if_neg hg]
    omega

/-- C9: every state reachable from the constructors through any sequence of
the public operations has its size bounded by the owned block's capacity. -/
theorem spec_c9 (v : Vec) (h : Reachable v) :
    v.elems.length ≤ v.cap := by
  induction h with
  | deflt => exact Nat.le_refl 0
  | ofSize n => simp [vecOfSize]
  | copyCtor _ _ => simp [Vec.copyCtor]
  | moveCtorDst _ ih => exact ih
  | moveCtorSrc _ _ => exact Nat.le_refl 0
  | copyAssign same _ _ ihv ihw =>
    unfold Vec.copyAssign
    split
    · exact ihv
    · split
      · simp
      · next h2 =>
        simp only
        omega
  | moveAssignDst _ _ ihv ihw => exact ihw
  | moveAssignSrc _ _ ihv ihw => exact ihv
  | swapFst _ _ ihv ihw => exact ihw
  | swapSnd _ _ ihv ihw => exact ihv
  | reserve n _ ih =>
    unfold Vec.reserve
    split
    · exact ih
    · next h2 =>
      simp only
      omega
  | resize n _ ih =>
    rename_i v _
    by_cases h1 : n = v.elems.length
    · rw [show v.resize n = v by
        unfold Vec.resize
        rw [if_pos h1]]
      exact ih
    · by_cases h2 : n < v.elems.length
      · rw [show v.resize n = ⟨v.elems.take n, v.cap⟩ by
          unfold Vec.resize
          rw [if_neg h1, if_pos h2]]
        simp only [List.length_take]
        omega
      · by_cases h3 : n ≤ v.cap
        · rw [show v.resize n =
              ⟨v.elems ++ List.replicate (n - v.elems.length) 0, v.cap⟩ by
            unfold Vec.resize
            rw [if_neg h1, if_neg h2]
            simp only [Vec.reserve, if_pos h3]]
          simp only [List.length_append, List.length_replicate]
          omega
        · rw [show v.resize n =
              ⟨v.elems ++ List.replicate (n - v.elems.length) 0, n⟩ by
            unfold Vec.resize
            rw [if_neg h1, if_neg h2]
            simp only [Vec.reserve, if_neg h3]]
          simp only [List.length_append, List.length_replicate]
          omega
  | pushBack x _ ih => exact emplaceBack_length_le x ih
  | popBack _ ih =>
    unfold Vec.popBack
    split
    · exact ih
    · simp only [List.length_dropLast]
      omega
  | emplaceBack x _ ih => exact emplaceBack_length_le x ih
  | emplace index x hidx _ ih => exact emplace_length_le index x hidx ih
  | insert index x hidx _ ih => exact emplace_length_le index x hidx ih
  | erase index h0 hlt _ ih =>
    unfold Vec.erase
    simp only [List.length_append, List.length_take, List.length_drop]
    omega

/-! ## Claim C2: strong exception guarantee -/

/-- C2, counterexample.  The claim includes copy assignment and Insert/Emplace
unconditionally.  (1) Copy assignment in the fits-in-capacity path assigns the
common prefix element-wise: with destination ⟨[10, 20], 2⟩, source
⟨[1, 2], 2⟩ and the second element operation throwing, the exception escapes
with the destination changed to [1, 20] — not its pre-call value.  (2) The
non-growth Insert path shifts elements before constructing the copy of the
inserted value: with vector ⟨[1, 2, 3], 4⟩, inserting at position 0 a value
whose copy throws leaves the live range changed to [1, 1, 2]. -/
theorem spec_c2_counterexample :
    (copyAssignT (fun c => decide (c = 1)) 0 ⟨[10, 20], 2⟩ ⟨[1, 2], 2⟩ =
        Except.error ⟨[1, 20], 2⟩ ∧ ([1, 20] : List Int) ≠ [10, 20]) ∧
    (emplaceNoGrowT (fun _ => true) 0 ⟨[1, 2, 3], 4⟩ 0 99 =
        Except.error ⟨[1, 1, 2], 4⟩ ∧ ([1, 1, 2] : List Int) ≠ [1, 2, 3]) :=
  ⟨⟨rfl, by decide⟩, ⟨rfl, by decide⟩⟩

/-- C2, amended.  For an element type whose copies can throw, the strong
guarantee (size, capacity and element values unchanged after an exception)
holds for `Reserve`, for `EmplaceBack`, for `Emplace`/`Insert` when the
vector is at full capacity (the growth path), and for copy assignment when
the source's size exceeds the destination's capacity (the build-and-swap
path).  Copy assignment within capacity and `Emplace`/`Insert` without
growth give only the basic guarantee: elements already assigned or shifted
before the throw stay modified. -/
theorem spec_c2_amended :
    (∀ (oracle : Nat → Bool) (cnt : Nat) (v : Vec) (n : Nat) (w : Vec),
      reserveT oracle cnt v n = Except.error w → w = v) ∧
    (∀ (oracle : Nat → Bool) (cnt : Nat) (v : Vec) (x : Int) (w : Vec),
      emplaceBackT oracle cnt v x = Except.error w → w = v) ∧
    (∀ (oracle : Nat → Bool) (cnt : Nat) (v : Vec) (index : Nat) (x : Int)
        (w : Vec),
      (emplaceGrowthT oracle cnt v index x).result = Except.error w →
        w = v) ∧
    (∀ (oracle : Nat → Bool) (cnt : Nat) (dst src : Vec) (w : Vec),
      dst.cap < src.elems.length →
      copyAssignT oracle cnt dst src = Except.error w → w = dst) := by
  refine ⟨?_, ?_, ?_, ?_⟩
  · intro oracle cnt v n w h
    unfold reserveT at h
    split at h
    · simp at h
    · split at h
      · simp at h
      · simp only [Except.error.injEq] at h
        exact h.symm
  · intro oracle cnt v x w h
    unfold emplaceBackT at h
    split at h
    · split at h
      · simp only [Except.error.injEq] at h
        exact h.symm
      · split at h
        · simp at h
        · simp only [Except.error.injEq] at h
          exact h.symm
    · split at h
      · simp only [Except.error.injEq] at h
        exact h.symm
      · simp at h
  · intro oracle cnt v index x w h
    simp only [emplaceGrowthT] at h
    split at h
    · simp only [Except.error.injEq] at h
      exact h.symm
    · split at h
      · simp only [Except.error.injEq] at h
        exact h.symm
      · split at h
        · simp only [Except.error.injEq] at h
          exact h.symm
        · simp at h
  · intro oracle cnt dst src w hbig h
    unfold copyAssignT at h
    rw [if_pos hbig] at h
    split at h
    · simp at h
    · simp only [Except.error.injEq] at h
      exact h.symm

/-- C2, witness: the amended theorem applied to a Reserve that throws on the
first transplanted copy and to a large-path copy assignment that throws
during the temporary's construction; in both runs the container equals its
pre-call state. -/
theorem spec_c2_witness :
    (⟨[3], 1⟩ : Vec) = ⟨[3], 1⟩ ∧ (⟨[10], 1⟩ : Vec) = ⟨[10], 1⟩ :=
  ⟨spec_c2_amended.1 (fun _ => true) 0 ⟨[3], 1⟩ 5 ⟨[3], 1⟩ rfl,
   spec_c2_amended.2.2.2 (fun _ => true) 0 ⟨[10], 1⟩ ⟨[1, 2], 2⟩ ⟨[10], 1⟩
     (by decide) rfl⟩

/-! ## Claim C3: cleanup in Emplace's growth path -/

/-- C3, evaluation at the failing input.  Insert 9 at position 2 of the full
vector ⟨[5, 6], 2⟩ with the first transplanted copy (element operation 1;
operation 0 constructs the new element) throwing.  `uninitialized_copy_n`
constructs nothing lasting, so in the new block only slot 2 (the new
element) is live, yet the catch block runs
`destroy_n(tmp.GetAddress(), index + 1)` destroying slots 0, 1, 2 — slots 0
and 1 were never constructed, so the cleanup is invalid (`cleanupValid =
false`), contradicting the claim that exactly the successfully constructed
elements are destroyed.  When instead the suffix copy throws (inserting at
position 1 with element operation 2 throwing), the same `destroy_n` call
destroys exactly the live prefix and the new element (`cleanupValid =
true`) — the defect is specific to a throw during the prefix transplant. -/
theorem spec_c3_evaluation :
    (emplaceGrowthT (fun c => decide (c = 1)) 0 ⟨[5, 6], 2⟩ 2 9).cleanupValid
        = false ∧
    (emplaceGrowthT (fun c => decide (c = 2)) 0 ⟨[5, 6], 2⟩ 1 9).cleanupValid
        = true ∧
    (emplaceGrowthT (fun c => decide (c = 1)) 0 ⟨[5, 6], 2⟩ 2 9).result
        = Except.error ⟨[5, 6], 2⟩ :=
  ⟨rfl, rfl, rfl⟩

/-! ## Claim C6: move-vs-copy selection during reallocation -/

/-- C6: the transplant step of Reserve, EmplaceBack and Emplace
move-constructs the live elements into the new block exactly when the element
type's move construction cannot throw or the type has no copy constructor;
otherwise it copy-constructs them, leaving the source elements' values intact
(and not moved-from) whether or not the transplant runs to completion, and in
the move case the transplant transfers all values without failing. -/
theorem spec_c6 (t : ElemTraits) (oracle : Nat → Bool) (cnt : Nat)
    (src : List Int) :
    (∀ c ∈ (transplant t oracle cnt src).2,
      c.movedFrom = (t.nothrowMove || !t.copyConstructible)) ∧
    ((t.nothrowMove || !t.copyConstructible) = false →
      List.map (fun c => c.value) (transplant t oracle cnt src).2 = src) ∧
    ((t.nothrowMove || !t.copyConstructible) = true →
      (transplant t oracle cnt src).1 = Except.ok (src, cnt)) := by
  by_cases hc : (t.nothrowMove || !t.copyConstructible) = true
  · have h2 : (transplant t oracle cnt src).2 =
        src.map (fun v => ⟨v, true⟩) := by
      unfold transplant
      rw [if_pos hc]
    refine ⟨?_, ?_, ?_⟩
    · intro c hcin
      rw [h2] at hcin
      simp only [List.mem_map] at hcin
      obtain ⟨a, _, rfl⟩ := hcin
      exact hc.symm
    · intro hfalse
      rw [hc] at hfalse
      exact absurd hfalse (by simp)
    · intro _
      unfold transplant
      rw [if_pos hc]
  · have hcf : (t.nothrowMove || !t.copyConstructible) = false := by
      revert hc
      cases t.nothrowMove || !t.copyConstructible <;> simp
    have h2 : (transplant t oracle cnt src).2 =
        src.map (fun v => ⟨v, false⟩) := by
      unfold transplant
      rw [if_neg hc]
      split <;> rfl
    refine ⟨?_, ?_, ?_⟩
    · intro c hcin
      rw [h2] at hcin
      simp only [List.mem_map] at hcin
      obtain ⟨a, _, rfl⟩ := hcin
      exact hcf.symm
    · intro _
      rw [h2]
      simp only [List.map_map]
      exact List.map_id src
    · intro htrue
      exact absurd htrue hc

/-- C6, witness: a copy-only type (nothrowMove false, copyConstructible
true) keeps the source values intact even when the first copy throws, and a
nothrow-move type transplants by moving without failing. -/
theorem spec_c6_witness :
    List.map (fun c => c.value)
      (transplant ⟨false, true⟩ (fun _ => true) 0 [1, 2]).2 = [1, 2] ∧
    (transplant ⟨true, true⟩ (fun _ => true) 0 [1, 2]).1 =
      Except.ok ([1, 2], 0) :=
  ⟨(spec_c6 ⟨false, true⟩ (fun _ => true) 0 [1, 2]).2.1 rfl,
   (spec_c6 ⟨true, true⟩ (fun _ => true) 0 [1, 2]).2.2 rfl⟩

/-- C9, witness: the invariant at the state reached by pushing 1, 2, 3 from
empty, inserting 99 at position 1, and erasing position 0. -/
theorem spec_c9_witness :
    (Vec.erase
      (Vec.emplace (((vecDefault.pushBack 1).pushBack 2).pushBack 3)
        1 99).1 0).1.elems.length ≤
    (Vec.erase
      (Vec.emplace (((vecDefault.pushBack 1).pushBack 2).pushBack 3)
        1 99).1 0).1.cap :=
  spec_c9 _ (Reachable.erase 0 (by decide) (by decide)
    (Reachable.emplace 1 99 (by decide)
      (Reachable.pushBack 3 (Reachable.pushBack 2
        (Reachable.pushBack 1 Reachable.deflt)))))

